import Mathlib

/-!
Verification of the murmur-brain retrieval core.

This file gives a shallow embedding, in Lean 4, of the retrieval-and-ranking
pipeline of the murmur-brain repository, and proves (or refutes) the frozen
specification claims about it.  Embedded components and their sources:

* `FaissIndexManager.*`  — src/server/core/faiss_manager.py
* `ChatService.*`        — src/server/modules/chats/chats_service.py
* `SearchService.*`      — src/server/modules/search/search_service.py
* `VectorRepository.*`   — src/server/modules/search/search_model.py
* `OllamaClient.*`       — src/server/core/ollama_client.py

Modelling conventions:
* Python floats are modelled as exact rationals (`ℚ`).  The only float
  operation with no rational counterpart is `math.sqrt` (used inside cosine
  similarity and L2 normalisation); it is abstracted as an explicit function
  parameter, and every theorem below holds for all values of that parameter.
* Python dicts are modelled as insertion-ordered association lists with the
  exact dict assignment semantics (`dictSet`).
* Code that can raise is modelled with `Except`/`Option`; `try/except`
  blocks become explicit `match`es on those values.
-/

set_option maxHeartbeats 2000000

set_option allowUnsafeReducibility true

attribute [local semireducible] Rat.inv Rat.ofScientific Rat.mul Rat.add Rat.sub

/-- Python dict assignment `d[k] = v`: replaces the value of an existing key
in place (keeping insertion order), otherwise appends the new binding. -/
def dictSet {α β : Type} [DecidableEq α] (k : α) (v : β) : List (α × β) → List (α × β)
  | [] => [(k, v)]
  | (k', v') :: rest => if k' = k then (k, v) :: rest else (k', v') :: dictSet k v rest

/-- Python dict lookup `d.get(k)`. -/
def dictGet {α β : Type} [DecidableEq α] (k : α) : List (α × β) → Option β
  | [] => none
  | (k', v') :: rest => if k' = k then some v' else dictGet k rest

/-- In-memory state of `FaissIndexManager` (src/server/core/faiss_manager.py).
`vectors` models the contents of the `faiss.IndexFlatIP` structure: the vector
stored at position `i` is `vectors[i]` and `index.ntotal = vectors.length`.
`id_to_index` and `index_to_id` are the two position maps.  Stored values are
kept as exact rationals; the value-level L2 normalisation
(`faiss.normalize_L2`) rescales a vector by a positive factor and preserves
its dimension, and no claim below depends on the stored values, so the
rescaling itself is not applied. -/
structure FaissState where
  embedding_dim : ℕ
  vectors : List (List ℚ)
  id_to_index : List (String × ℕ)
  index_to_id : List (ℕ × String)
deriving DecidableEq

/-- `FaissIndexManager.__init__` before `load`: an empty index of the
configured dimension with both maps empty. -/
def FaissState.empty (embedding_dim : ℕ) : FaissState :=
  { embedding_dim := embedding_dim, vectors := [], id_to_index := [], index_to_id := [] }

/-- `FaissIndexManager.add_vectors`.  Mirrors the source: empty input returns
failure; a length mismatch raises `ValueError` which the surrounding
`try/except` turns into failure; an embedding whose dimension differs from the
index dimension makes `np.array`/`index.add` raise (also caught, and raised
before any mutation).  On success the embeddings are appended at positions
`start_index..start_index+k-1` and both maps receive the corresponding
bindings. -/
def FaissIndexManager.add_vectors (st : FaissState) (vector_ids : List String)
    (embeddings : List (List ℚ)) : FaissState × Bool :=
  if vector_ids = [] ∨ embeddings = [] then (st, false)
  else if vector_ids.length ≠ embeddings.length then (st, false)
  else if ∃ e ∈ embeddings, e.length ≠ st.embedding_dim then (st, false)
  else
    let start_index := st.vectors.length
    let pairs := vector_ids.zip (List.range' start_index vector_ids.length)
    ({ st with
        vectors := st.vectors ++ embeddings
        id_to_index := pairs.foldl (fun d p => dictSet p.1 p.2 d) st.id_to_index
        index_to_id := pairs.foldl (fun d p => dictSet p.2 p.1 d) st.index_to_id },
     true)

/-- The reconstruction loop at the top of `_rebuild_without_ids`:
`index.reconstruct(idx)` for each retained binding, in map iteration order.
A position outside the index makes `reconstruct` raise, modelled as `none`
(the exception is raised before any mutation of the manager). -/
def FaissIndexManager.reconstructAll (vectors : List (List ℚ)) :
    List (String × ℕ) → Option (List (List ℚ))
  | [] => some []
  | p :: rest =>
    match vectors.get? p.2, FaissIndexManager.reconstructAll vectors rest with
    | some v, some vs => some (v :: vs)
    | _, _ => none

/-- `FaissIndexManager._rebuild_without_ids`: keep every binding of
`id_to_index` whose id is not being removed, reconstruct the kept vectors,
then rebuild the index and both maps from scratch with dense positions
`0..M-1`. -/
def FaissIndexManager.rebuild_without_ids (st : FaissState) (ids_to_remove : List String) :
    FaissState × Bool :=
  let keep := st.id_to_index.filter (fun p => ¬ ids_to_remove.contains p.1)
  match FaissIndexManager.reconstructAll st.vectors keep with
  | none => (st, false)
  | some vectors_to_keep =>
    let ids_to_keep := keep.map Prod.fst
    let pairs := ids_to_keep.zip (List.range ids_to_keep.length)
    ({ st with
        vectors := vectors_to_keep
        id_to_index := pairs.foldl (fun d p => dictSet p.1 p.2 d) []
        index_to_id := pairs.foldl (fun d p => dictSet p.2 p.1 d) [] },
     true)

/-- `FaissIndexManager.remove_vectors`: empty request and requests naming no
stored id succeed with no change; otherwise the index is rebuilt without the
named ids. -/
def FaissIndexManager.remove_vectors (st : FaissState) (vector_ids : List String) :
    FaissState × Bool :=
  if vector_ids = [] then (st, true)
  else if vector_ids.all (fun vid => dictGet vid st.id_to_index = none) then (st, true)
  else FaissIndexManager.rebuild_without_ids st vector_ids

/-- `FaissIndexManager.clear`. -/
def FaissIndexManager.clear (st : FaissState) : FaissState × Bool :=
  ({ st with vectors := [], id_to_index := [], index_to_id := [] }, true)

/-- The two on-disk artifacts read by `FaissIndexManager.load`.  For each
file, `none` = file absent, `some none` = file present but reading it raises
(corrupt blob), `some (some x)` = file present with content `x`. -/
structure FaissDisk where
  indexFile : Option (Option (List (List ℚ)))
  mappingsFile : Option (Option (List (String × ℕ) × List (ℕ × String)))
deriving DecidableEq

/-- `FaissIndexManager.load`.  Mirrors the source: a missing index file
returns `False` with the in-memory state untouched; a raising read of either
blob is caught by the `except` branch, which resets the manager to an empty
index of the configured dimension with both maps cleared; a present index
blob with a missing mappings file installs the loaded index structure while
both maps keep their previous contents, and returns `True`. -/
def FaissIndexManager.load (st : FaissState) (disk : FaissDisk) : FaissState × Bool :=
  match disk.indexFile with
  | none => (st, false)
  | some none =>
      ({ st with vectors := [], id_to_index := [], index_to_id := [] }, false)
  | some (some vecs) =>
    match disk.mappingsFile with
    | none => ({ st with vectors := vecs }, true)
    | some none =>
        ({ st with vectors := [], id_to_index := [], index_to_id := [] }, false)
    | some (some maps) =>
        ({ st with vectors := vecs, id_to_index := maps.1, index_to_id := maps.2 }, true)

/-- Python truthiness of the `vector_ids_filter` argument: both `None` and an
empty list count as "no filter" in `search`. -/
def filterTruthy : Option (List String) → Bool
  | none => false
  | some l => ¬ l.isEmpty

/-- The number of raw hits `search` requests from the flat index:
`top_k` without a (truthy) filter, `min(index.ntotal, top_k * 10)` with one. -/
def FaissIndexManager.searchRequestK (st : FaissState) (top_k : ℕ)
    (fil : Option (List String)) : ℕ :=
  if filterTruthy fil then min st.vectors.length (top_k * 10) else top_k

/-- The result-collection loop of `FaissIndexManager.search`: walk the raw
hits in order, skip positions with no live id, skip ids rejected by the
filter, and stop as soon as `top_k` results have been collected (`cnt` is the
number collected so far).  FAISS pads short result rows with position `-1`,
which the loop also skips; the backend model below never produces the padding,
so that skip has no counterpart here. -/
def FaissIndexManager.collectHits (st : FaissState) (fil : Option (List String))
    (top_k : ℕ) : ℕ → List (ℕ × ℚ) → List (String × ℚ)
  | _, [] => []
  | cnt, (idx, sim) :: rest =>
    match dictGet idx st.index_to_id with
    | none => FaissIndexManager.collectHits st fil top_k cnt rest
    | some vector_id =>
      if filterTruthy fil ∧ ¬ (fil.getD []).contains vector_id then
        FaissIndexManager.collectHits st fil top_k cnt rest
      else
        (vector_id, sim) ::
          (if cnt + 1 ≥ top_k then []
           else FaissIndexManager.collectHits st fil top_k (cnt + 1) rest)

/-- Descending order on raw hit scores. -/
def rawDesc (a b : ℕ × ℚ) : Prop := b.2 ≤ a.2

instance : DecidableRel rawDesc := fun a b =>
  inferInstanceAs (Decidable (b.2 ≤ a.2))

instance : IsTotal (ℕ × ℚ) rawDesc := ⟨fun a b => le_total b.2 a.2⟩

instance : IsTrans (ℕ × ℚ) rawDesc := ⟨fun _ _ _ hab hbc => le_trans hbc hab⟩

/-- Exact search over the flat inner-product structure: score every stored
position against the query and return the best `k`, sorted by descending
score.  `ip` abstracts the float inner product of the L2-normalised query
with the stored vector (the normalisation divides by a float `sqrt`, which
has no exact rational counterpart; no claim below depends on the scores'
values). -/
def IndexFlatIP.searchAll (ip : List ℚ → List ℚ → ℚ) (vectors : List (List ℚ))
    (q : List ℚ) (k : ℕ) : List (ℕ × ℚ) :=
  (List.insertionSort rawDesc
    ((List.range vectors.length).map (fun i => (i, ip q (vectors.getD i []))))).take k

/-- `FaissIndexManager.search` with the inner `self.index.search` call held
abstract (`backend`), so that a raising backend can be modelled: the
surrounding `try/except` turns any exception into an empty result list.  An
empty index short-circuits to `[]` before the backend is consulted. -/
def FaissIndexManager.searchWith
    (backend : List (List ℚ) → List ℚ → ℕ → Except String (List (ℕ × ℚ)))
    (st : FaissState) (query_embedding : List ℚ) (top_k : ℕ)
    (fil : Option (List String)) : List (String × ℚ) :=
  if st.vectors.length = 0 then []
  else
    match backend st.vectors query_embedding (FaissIndexManager.searchRequestK st top_k fil) with
    | .error _ => []
    | .ok raw => FaissIndexManager.collectHits st fil top_k 0 raw

/-- `FaissIndexManager.search` with the real (never-raising) exact flat-index
backend. -/
def FaissIndexManager.search (ip : List ℚ → List ℚ → ℚ) (st : FaissState)
    (query_embedding : List ℚ) (top_k : ℕ) (fil : Option (List String)) :
    List (String × ℚ) :=
  FaissIndexManager.searchWith
    (fun vs qq k => .ok (IndexFlatIP.searchAll ip vs qq k))
    st query_embedding top_k fil

/-- Char-list prefix test (used by the substring scan below). -/
def isPref : List Char → List Char → Bool
  | [], _ => true
  | _ :: _, [] => false
  | a :: as, b :: bs => a = b && isPref as bs

/-- Fueled scan for Python's `text.count(sub)`: non-overlapping occurrences,
scanning left to right.  Every step consumes at least one character, so fuel
`text.length` is exact. -/
def countSubAux (p : List Char) : ℕ → List Char → ℕ
  | 0, _ => 0
  | _ + 1, [] => 0
  | fuel + 1, c :: rest =>
    if isPref p (c :: rest) then 1 + countSubAux p fuel (rest.drop (p.length - 1))
    else countSubAux p fuel rest

/-- Python `text.count(sub)` on a char list. -/
def countSub (p t : List Char) : ℕ := countSubAux p t.length t

/-- Python regex `\w` (ASCII fragment: the texts the claims quantify over are
modelled with ASCII word characters; `_` is a word character, so tokens such
as `x_i` contain no `\b` boundary around their letters). -/
def isWordChar (c : Char) : Bool := c.isAlphanum || c = '_'

/-- Fueled scan computing the lengths of the matches of
`re.findall(r'\b[a-zA-Z]+\b', text)`: maximal ASCII-letter runs whose
neighbours on both sides are not word characters.  `prevWord` records whether
the previous character is a word character (start of text counts as not). -/
def wordLensAux : ℕ → Bool → List Char → List ℕ
  | 0, _, _ => []
  | _ + 1, _, [] => []
  | fuel + 1, prevWord, c :: rest =>
    if c.isAlpha && !prevWord then
      let runTail := rest.takeWhile Char.isAlpha
      let after := rest.drop runTail.length
      match after with
      | [] => [1 + runTail.length]
      | d :: _ =>
        if isWordChar d then wordLensAux fuel true rest
        else (1 + runTail.length) :: wordLensAux fuel true after
    else wordLensAux fuel (isWordChar c) rest

/-- Lengths of the alphabetic tokens `re.findall(r'\b[a-zA-Z]+\b', text)`. -/
def wordLens (t : List Char) : List ℕ := wordLensAux t.length false t

/-- Fueled scan counting the matches of `re.findall(r'\b\d+\.?\d*\b', text)`,
reproducing the regex engine's greedy matching with backtracking on the
optional dot and trailing digits: a match starts at a digit run with no word
character before it; if a dot follows, the match extends over the dot and any
following digits when the final word-boundary holds, otherwise it backtracks
to end at the dot (boundary between `.` and a following word character) or,
failing that, to the bare digit run; a digit run followed directly by a letter
or underscore matches nothing. -/
def countNumbersAux : ℕ → Bool → List Char → ℕ
  | 0, _, _ => 0
  | _ + 1, _, [] => 0
  | fuel + 1, prevWord, c :: rest =>
    if c.isDigit && !prevWord then
      let run1 := rest.takeWhile Char.isDigit
      let after1 := rest.drop run1.length
      match after1 with
      | [] => 1
      | d :: rest2 =>
        if d = '.' then
          let run2 := rest2.takeWhile Char.isDigit
          let after2 := rest2.drop run2.length
          if run2.length > 0 then
            match after2 with
            | [] => 1 + countNumbersAux fuel true after2
            | e :: _ =>
              if isWordChar e then 1 + countNumbersAux fuel false rest2
              else 1 + countNumbersAux fuel true after2
          else
            match rest2 with
            | [] => 1 + countNumbersAux fuel true after1
            | e :: _ =>
              if isWordChar e then 1 + countNumbersAux fuel false rest2
              else 1 + countNumbersAux fuel true after1
        else if isWordChar d then countNumbersAux fuel true rest
        else 1 + countNumbersAux fuel true after1
    else countNumbersAux fuel (isWordChar c) rest

/-- Number of numeric tokens `re.findall(r'\b\d+\.?\d*\b', text)`. -/
def countNumbers (t : List Char) : ℕ := countNumbersAux t.length false t

/-- The `math_symbols` list of `calculate_chunk_quality_score`. -/
def mathSymbolPatterns : List (List Char) :=
  [['∑'], ['∫'], ['∂'], ['√'], ['±'], ['≤'], ['≥'], ['≠'], ['∞'],
   ['e', 'x', 'p', '('], ['l', 'o', 'g', '('], ['s', 'i', 'n', '('],
   ['c', 'o', 's', '(']]

/-- The `brackets` list of `calculate_chunk_quality_score` (the last two
entries are the curly braces, written via their code points). -/
def bracketChars : List Char :=
  ['[', ']', '(', ')', Char.ofNat 0x7b, Char.ofNat 0x7d]

/-- `sum(text.count(sym) for sym in math_symbols)`. -/
def mathCountOf (text : List Char) : ℕ :=
  (mathSymbolPatterns.map (fun p => countSub p text)).sum

/-- `sum(text.count(b) for b in brackets)`. -/
def bracketCountOf (text : List Char) : ℕ :=
  (bracketChars.map (fun b => text.count b)).sum

/-- `math_density`: math-symbol occurrences per 100 characters. -/
def mathDensityOf (text : List Char) : ℚ :=
  (mathCountOf text : ℚ) / ((text.length : ℚ) / 100)

/-- `bracket_density`: fraction of characters that are brackets. -/
def bracketDensityOf (text : List Char) : ℚ :=
  (bracketCountOf text : ℚ) / (text.length : ℚ)

/-- `newline_density`: newlines per 100 characters. -/
def newlineDensityOf (text : List Char) : ℚ :=
  (text.count '\n' : ℚ) / ((text.length : ℚ) / 100)

/-- `ChatService.calculate_chunk_quality_score`
(src/server/modules/chats/chats_service.py): the heuristic readability score,
transcribed penalty by penalty from the source. -/
def ChatService.calculate_chunk_quality_score (text : List Char) : ℚ :=
  if text.length < 50 then 0
  else
    let score1 : ℚ := 1 - min 0.4 (mathDensityOf text * 0.1)
    let score2 : ℚ :=
      if bracketDensityOf text > 0.15 then score1 - min 0.3 (bracketDensityOf text * 0.5)
      else score1
    let numbers : ℚ := countNumbers text
    let lens := wordLens text
    let words : ℚ := lens.length
    let score3 : ℚ :=
      if lens.length > 0 then
        if numbers / (words + numbers) > 0.3 then
          score2 - min 0.3 (numbers / (words + numbers) * 0.5)
        else score2
      else score2
    let score4 : ℚ :=
      if newlineDensityOf text > 5 then score3 - min 0.2 (newlineDensityOf text * 0.02)
      else score3
    let short_count : ℚ := (lens.filter (fun l => l ≤ 2)).length
    let score5 : ℚ :=
      if lens.length > 0 ∧ short_count / words > 0.4 then score4 - 0.2 else score4
    max 0 (min 1 score5)

/-- The claim's symbol-density penalty: `min(0.4, density * 0.1)`, applied
unconditionally. -/
def qualityPenaltySymbols (text : List Char) : ℚ :=
  min 0.4 (mathDensityOf text * 0.1)

/-- The claim's bracket-density penalty: `min(0.3, density * 0.5)` when the
bracket fraction exceeds 0.15. -/
def qualityPenaltyBrackets (text : List Char) : ℚ :=
  if bracketDensityOf text > 0.15 then min 0.3 (bracketDensityOf text * 0.5) else 0

/-- The numeric-token fraction: numeric tokens among (numeric + alphabetic)
tokens. -/
def numericTokenFrac (text : List Char) : ℚ :=
  (countNumbers text : ℚ) / (((wordLens text).length : ℚ) + (countNumbers text : ℚ))

/-- The claim's numeric-token penalty, exactly as the claim words it:
`min(0.3, ratio * 0.5)` whenever the numeric-token ratio exceeds 0.3. -/
def qualityPenaltyNumericClaimed (text : List Char) : ℚ :=
  if numericTokenFrac text > 0.3 then min 0.3 (numericTokenFrac text * 0.5) else 0

/-- The numeric-token penalty as the code implements it: additionally guarded
by the presence of at least one alphabetic token (`len(words) > 0`). -/
def qualityPenaltyNumeric (text : List Char) : ℚ :=
  if (wordLens text).length > 0 then
    if numericTokenFrac text > 0.3 then min 0.3 (numericTokenFrac text * 0.5) else 0
  else 0

/-- The newline-density penalty: `min(0.2, density * 0.02)` when newlines per
100 characters exceed 5. -/
def qualityPenaltyNewlines (text : List Char) : ℚ :=
  if newlineDensityOf text > 5 then min 0.2 (newlineDensityOf text * 0.02) else 0

/-- Fraction of alphabetic tokens of length at most 2. -/
def shortTokenFrac (text : List Char) : ℚ :=
  (((wordLens text).filter (fun l => l ≤ 2)).length : ℚ) / ((wordLens text).length : ℚ)

/-- The short-token penalty: a flat 0.2 when more than 40% of the alphabetic
tokens have length at most 2 (vacuously inapplicable without alphabetic
tokens, in the claim and in the code alike). -/
def qualityPenaltyShort (text : List Char) : ℚ :=
  if (wordLens text).length > 0 ∧ shortTokenFrac text > 0.4 then 0.2 else 0

/-- The quality score exactly as the claim words it: 1.0 minus the five
independent additive penalties, clamped to `[0, 1]`, with texts under 50
characters scoring 0. -/
def qualityScoreClaimed (text : List Char) : ℚ :=
  if text.length < 50 then 0
  else
    max 0 (min 1
      (1 - qualityPenaltySymbols text - qualityPenaltyBrackets text
        - qualityPenaltyNumericClaimed text - qualityPenaltyNewlines text
        - qualityPenaltyShort text))

/-- The claim's formula amended to the code's guard on the numeric penalty:
that penalty additionally requires at least one alphabetic token. -/
def qualityScoreAmended (text : List Char) : ℚ :=
  if text.length < 50 then 0
  else
    max 0 (min 1
      (1 - qualityPenaltySymbols text - qualityPenaltyBrackets text
        - qualityPenaltyNumeric text - qualityPenaltyNewlines text
        - qualityPenaltyShort text))

/-- A hit handed to the quality-rerank stage of
`ChatService.build_rag_context`: the fields of a `SearchResultItem` the stage
reads. -/
structure RagHit where
  vector_id : String
  chunk_text : List Char
  similarity : ℚ
deriving DecidableEq

/-- A scored hit: the dict `{"result": ..., "quality_score": ...,
"combined_score": ...}` built for every search result. -/
structure ScoredHit where
  result : RagHit
  quality_score : ℚ
  combined_score : ℚ
deriving DecidableEq

/-- The scoring loop of `build_rag_context`: quality score and multiplicative
combined score for every candidate. -/
def ChatService.scoreResults (results : List RagHit) : List ScoredHit :=
  results.map (fun r =>
    { result := r
      quality_score := ChatService.calculate_chunk_quality_score r.chunk_text
      combined_score :=
        r.similarity * ChatService.calculate_chunk_quality_score r.chunk_text })

/-- Descending order on combined score (Python
`sorted(key=..., reverse=True)`; the non-strict relation makes the sort
stable, as Python's is). -/
def combinedDesc (a b : ScoredHit) : Prop := b.combined_score ≤ a.combined_score

instance : DecidableRel combinedDesc := fun a b =>
  inferInstanceAs (Decidable (b.combined_score ≤ a.combined_score))

instance : IsTotal ScoredHit combinedDesc :=
  ⟨fun a b => le_total b.combined_score a.combined_score⟩

instance : IsTrans ScoredHit combinedDesc :=
  ⟨fun _ _ _ hab hbc => le_trans hbc hab⟩

/-- The quality-filter / re-rank stage of `ChatService.build_rag_context`
(lines 230-263 of chats_service.py): score every candidate, keep those with
quality at least 0.5, relax to the full candidate set when the filtered set
has fewer than `top_k` entries and candidates exist, then sort by combined
score descending and truncate to `top_k`. -/
def ChatService.build_rag_context_rank (results : List RagHit) (top_k : ℕ) :
    List ScoredHit :=
  let scored_results := ChatService.scoreResults results
  let filtered_results := scored_results.filter (fun sr => sr.quality_score ≥ 0.5)
  let relaxed :=
    if filtered_results.length < top_k ∧ scored_results.length > 0 then
      List.insertionSort combinedDesc scored_results
    else filtered_results
  (List.insertionSort combinedDesc relaxed).take top_k

/-- `VectorRepository.cosine_similarity` (search_model.py), with the value
`dot / (magnitude1 * magnitude2)` abstracted as `rawCos` (the magnitudes are
float square roots, which have no exact rational counterpart).  The zero
checks are exact: a float magnitude is zero exactly when the rational sum of
squares is.  The result is clamped into `[0, 1]` as in the source. -/
def VectorRepository.cosine_similarity (rawCos : List ℚ → List ℚ → ℚ)
    (vec1 vec2 : List ℚ) : ℚ :=
  if vec1 = [] ∨ vec2 = [] ∨ vec1.length ≠ vec2.length then 0
  else if (vec1.map (fun a => a * a)).sum = 0 ∨ (vec2.map (fun b => b * b)).sum = 0 then 0
  else max 0 (min 1 (rawCos vec1 vec2))

/-- The exact inner product, used to instantiate `rawCos` at concrete inputs
whose magnitudes are exactly 1 (where the float computation coincides with
it). -/
def dotQ (v1 v2 : List ℚ) : ℚ := ((v1.zip v2).map (fun p => p.1 * p.2)).sum

/-- A row of `VectorRepository.get_vectors_with_documents` as the fallback
loop of `SearchService.search` consumes it: the stored embedding is shown
after `decode_embedding`, with `none` standing for a missing blob or a decode
failure (both are skipped).  Display-only metadata columns (file name, type,
upload date) are omitted. -/
structure DBRow where
  vector_id : String
  doc_id : String
  embedding : Option (List ℚ)
deriving DecidableEq

/-- Descending order on similarity (Python `sort(key=..., reverse=True)`). -/
def simDesc (a b : String × ℚ) : Prop := b.2 ≤ a.2

instance : DecidableRel simDesc := fun a b =>
  inferInstanceAs (Decidable (b.2 ≤ a.2))

instance : IsTotal (String × ℚ) simDesc := ⟨fun a b => le_total b.2 a.2⟩

instance : IsTrans (String × ℚ) simDesc := ⟨fun _ _ _ hab hbc => le_trans hbc hab⟩

/-- The Python fallback branch of `SearchService.search` (lines 159-202):
scan every stored row, skip rows whose embedding is missing or decodes to
nothing (`if not stored_embedding` also skips an empty list), keep rows whose
cosine similarity reaches the threshold, then sort by similarity descending
and truncate to `top_k`.  The `round(similarity, 4)` applied for display is
not modelled; no claim depends on it. -/
def SearchService.python_fallback (rawCos : List ℚ → List ℚ → ℚ) (rows : List DBRow)
    (query_embedding : List ℚ) (threshold : ℚ) (top_k : ℕ) : List (String × ℚ) :=
  let kept := rows.filterMap (fun row =>
    match row.embedding with
    | none => none
    | some stored =>
      if stored = [] then none
      else
        let s := VectorRepository.cosine_similarity rawCos query_embedding stored
        if s ≥ threshold then some (row.vector_id, s) else none)
  (List.insertionSort simDesc kept).take top_k

/-- The FAISS-path result loop of `SearchService.search` (lines 128-149):
walk the raw hits in order; a hit is kept when its similarity reaches the
threshold and its metadata row was found (`meta`); after each hit the loop
stops once `top_k` results are collected (`cnt` = number collected so far). -/
def SearchService.faiss_filter_loop (meta : String → Bool) (threshold : ℚ)
    (top_k : ℕ) : ℕ → List (String × ℚ) → List (String × ℚ)
  | _, [] => []
  | cnt, (vid, sim) :: rest =>
    if sim ≥ threshold ∧ meta vid then
      (vid, sim) ::
        (if cnt + 1 ≥ top_k then []
         else SearchService.faiss_filter_loop meta threshold top_k (cnt + 1) rest)
    else if cnt ≥ top_k then []
    else SearchService.faiss_filter_loop meta threshold top_k cnt rest

/-- The fields of a `SearchResponse` the claims refer to; results are
`(vector_id, similarity)` pairs and the display metadata is omitted. -/
structure SearchResponseM where
  success : Bool
  results : List (String × ℚ)
  total_searched : ℕ
deriving DecidableEq

/-- `SearchService.search` (search_service.py).  Collaborator calls are
explicit arguments: `query_embedding_call` is the outcome of
`ollama.generate_embedding(query)`; `primary` is the outcome of the body of
the inner `try` up to and including the FAISS search (its `.error` is any
exception raised there, which the `except` branch turns into the Python
fallback); `meta` is the metadata lookup built for the FAISS hits; `db_rows`
is what `get_vectors_with_documents(doc_ids)` returns in the fallback branch
(already scoped to `doc_ids`).  A raised exception is `.error ()`: the outer
`except` re-raises. -/
def SearchService.search (rawCos : List ℚ → List ℚ → ℚ) (meta : String → Bool)
    (db_rows : List DBRow) (query : List Char)
    (query_embedding_call : Except Unit (List ℚ))
    (primary : Except Unit (List (String × ℚ)))
    (top_k : ℕ) (threshold : ℚ) : Except Unit SearchResponseM :=
  if query.all (fun c => c.isWhitespace) then .error ()
  else if top_k < 1 ∨ top_k > 100 then .error ()
  else if threshold < 0 ∨ threshold > 1 then .error ()
  else
    match query_embedding_call with
    | .error _ => .error ()
    | .ok query_embedding =>
      if query_embedding = [] then .error ()
      else
        match primary with
        | .ok faiss_results =>
          if faiss_results = [] then
            .ok { success := true, results := [], total_searched := 0 }
          else
            .ok { success := true
                  results := SearchService.faiss_filter_loop meta threshold top_k 0 faiss_results
                  total_searched := faiss_results.length }
        | .error _ =>
          if db_rows = [] then
            .ok { success := true, results := [], total_searched := 0 }
          else
            .ok { success := true
                  results := SearchService.python_fallback rawCos db_rows query_embedding
                    threshold top_k
                  total_searched := db_rows.length }

/-- One attempt of the retry loop of `OllamaClient.generate_embedding`:
`fail` is a raising HTTP call (non-200 status or transport error), `success`
is a 200 response whose parsed JSON may or may not carry an `embedding`
field. -/
inductive EmbedAttempt
  | fail : EmbedAttempt
  | success (embedding : Option (List ℚ)) : EmbedAttempt
deriving DecidableEq

/-- The retry loop of `OllamaClient.generate_embedding`: attempt `i`, then
`i+1`, ... while fuel (remaining attempts) lasts; a successful HTTP response
returns `result.get("embedding", [])` immediately; exhausting all attempts
raises. -/
def OllamaClient.generate_embedding_loop (attempts : ℕ → EmbedAttempt) :
    ℕ → ℕ → Except Unit (List ℚ)
  | _, 0 => .error ()
  | i, n + 1 =>
    match attempts i with
    | .success emb => .ok (emb.getD [])
    | .fail => OllamaClient.generate_embedding_loop attempts (i + 1) n

/-- `OllamaClient.generate_embedding(text, max_retries)` (ollama_client.py):
the provider's behaviour on the successive attempts for the given text is the
oracle `attempts`. -/
def OllamaClient.generate_embedding (attempts : ℕ → EmbedAttempt)
    (max_retries : ℕ) : Except Unit (List ℚ) :=
  OllamaClient.generate_embedding_loop attempts 0 max_retries

/-! ### Model validation on concrete inputs

Small sanity checks of the embedding: the scanner functions agree with the
behaviour of `str.count` and `re.findall` on sample strings, and a fresh add
populates both maps. -/

example :
    (FaissIndexManager.add_vectors (FaissState.empty 2) ["a", "b"] [[1, 0], [0, 1]]).2
      = true := by decide

example :
    ((FaissIndexManager.add_vectors (FaissState.empty 2) ["a", "b"]
        [[1, 0], [0, 1]]).1).id_to_index = [("a", 0), ("b", 1)] := by decide

example :
    ChatService.calculate_chunk_quality_score (("short text") : String).toList = 0 := by
  decide

example : countNumbers (("3.14x y 12a 7.5 33..44") : String).toList = 4 := by decide

example : wordLens (("x_i = sum(ab * b_k) for i in") : String).toList
    = [3, 2, 3, 1, 2] := by decide

/-! ### Claim C5 — `add_vectors` failure modes and atomicity -/

/-- C5: the VectorIndex add operation returns failure (it does not raise) on
empty input or on a length/dimension mismatch, and on any failure it leaves
the index contents and both position maps exactly as they were before the
call: a failed `add_vectors` returns the unchanged state, and each of the
listed bad inputs is a failure. -/
theorem add_vectors_failure_atomic (st : FaissState) (ids : List String)
    (embs : List (List ℚ)) :
    ((FaissIndexManager.add_vectors st ids embs).2 = false →
      (FaissIndexManager.add_vectors st ids embs).1 = st) ∧
    (ids = [] ∨ embs = [] ∨ ids.length ≠ embs.length ∨
        (∃ e ∈ embs, e.length ≠ st.embedding_dim) →
      FaissIndexManager.add_vectors st ids embs = (st, false)) := by
  unfold FaissIndexManager.add_vectors
  constructor
  · intro h
    split_ifs at h ⊢ <;> simp_all
  · intro h
    split_ifs with h1 h2 h3
    · rfl
    · rfl
    · rfl
    · exfalso
      rcases h with h | h | h | h
      · exact h1 (Or.inl h)
      · exact h1 (Or.inr h)
      · exact h2 h
      · exact h3 h

/-- Witness for C5 at a concrete input: adding with an empty embedding list
fails and leaves the empty index untouched. -/
theorem add_vectors_failure_atomic_witness :
    FaissIndexManager.add_vectors (FaissState.empty 2) ["a"] [] =
      (FaissState.empty 2, false) :=
  (add_vectors_failure_atomic (FaissState.empty 2) ["a"] []).2 (Or.inr (Or.inl rfl))


/-! ### Claim C10 — `search` never raises; failure is indistinguishable from
an empty index -/

/-- C10: the VectorIndex search operation never raises — it is a total
function into result lists even when the inner index search fails — and any
backend error yields `[]`, exactly the result an empty index yields for every
backend, so the caller cannot distinguish the two outcomes. -/
theorem search_error_yields_empty
    (backend : List (List ℚ) → List ℚ → ℕ → Except String (List (ℕ × ℚ)))
    (st : FaissState) (q : List ℚ) (top_k : ℕ) (fil : Option (List String)) :
    (∀ e, backend st.vectors q (FaissIndexManager.searchRequestK st top_k fil) = .error e →
      FaissIndexManager.searchWith backend st q top_k fil = []) ∧
    (st.vectors = [] → FaissIndexManager.searchWith backend st q top_k fil = []) := by
  constructor
  · intro e he
    unfold FaissIndexManager.searchWith
    split_ifs with h
    · rfl
    · rw [he]
  · intro h
    unfold FaissIndexManager.searchWith
    simp [h]

/-- Witness for C10 at a concrete input: a raising backend over a one-vector
index returns `[]`, as does any backend over the empty index. -/
theorem search_error_yields_empty_witness :
    FaissIndexManager.searchWith (fun _ _ _ => .error "boom")
        { embedding_dim := 2, vectors := [[1, 0]],
          id_to_index := [("a", 0)], index_to_id := [(0, "a")] } [1, 0] 5 none = [] ∧
    FaissIndexManager.searchWith (fun _ _ _ => .ok [(0, 1)]) (FaissState.empty 2)
        [1, 0] 5 none = [] := by
  constructor
  · exact (search_error_yields_empty _ _ _ _ _).1 "boom" rfl
  · exact (search_error_yields_empty _ _ _ _ _).2 rfl

/-! ### Claim C2 — `load` behaviour (corrected) -/

/-- C2 counterexample: with the index blob present (two vectors) and the
mappings blob absent, `load` reports success and installs a two-vector index
(while both maps stay at their prior contents) — the whole index is *not*
treated as empty, contradicting the claim's reading of a missing companion
file. -/
theorem load_missing_mappings_counterexample :
    (FaissIndexManager.load (FaissState.empty 2)
        { indexFile := some (some [[1, 0], [0, 1]]), mappingsFile := none }).2 = true ∧
    ((FaissIndexManager.load (FaissState.empty 2)
        { indexFile := some (some [[1, 0], [0, 1]]), mappingsFile := none }).1).vectors.length
      = 2 := by decide

/-- C2 amended: a missing index file returns failure without raising and
leaves the in-memory state untouched; a raising read of either blob resets
the manager to an empty index of the configured dimension with both maps
cleared (and returns failure); but a present index blob with a missing
mappings file loads the index structure, keeps both maps' prior contents, and
returns success — the index is treated as empty only in the sense that no
position has a live id. -/
theorem load_behaviour (st : FaissState) (disk : FaissDisk) :
    (disk.indexFile = none → FaissIndexManager.load st disk = (st, false)) ∧
    (disk.indexFile = some none →
      FaissIndexManager.load st disk =
        ({ st with vectors := [], id_to_index := [], index_to_id := [] }, false)) ∧
    (∀ vecs, disk.indexFile = some (some vecs) → disk.mappingsFile = some none →
      FaissIndexManager.load st disk =
        ({ st with vectors := [], id_to_index := [], index_to_id := [] }, false)) ∧
    (∀ vecs, disk.indexFile = some (some vecs) → disk.mappingsFile = none →
      FaissIndexManager.load st disk = ({ st with vectors := vecs }, true)) := by
  refine ⟨fun h => ?_, fun h => ?_, fun vecs h hm => ?_, fun vecs h hm => ?_⟩
  · simp [FaissIndexManager.load, h]
  · simp [FaissIndexManager.load, h]
  · simp [FaissIndexManager.load, h, hm]
  · simp [FaissIndexManager.load, h, hm]

/-- Witness for C2 at concrete inputs: both untouched-fail on a missing index
file and reset-and-fail on a corrupt index blob. -/
theorem load_behaviour_witness :
    FaissIndexManager.load (FaissState.empty 3) { indexFile := none, mappingsFile := none } =
      (FaissState.empty 3, false) ∧
    FaissIndexManager.load
        { embedding_dim := 3, vectors := [[1, 2, 3]],
          id_to_index := [("a", 0)], index_to_id := [(0, "a")] }
        { indexFile := some none, mappingsFile := none } =
      ({ embedding_dim := 3, vectors := [], id_to_index := [], index_to_id := [] }, false) := by
  constructor
  · exact (load_behaviour _ _).1 rfl
  · exact (load_behaviour _ _).2.1 rfl

/-! ### Claim C8 — embedding client contract (corrected) -/

/-- C8 counterexample: when the provider answers with HTTP 200 but the JSON
carries no `embedding` field (or an empty one), `generate_embedding` returns
the empty vector to its caller instead of raising. -/
theorem generate_embedding_empty_counterexample :
    OllamaClient.generate_embedding (fun _ => EmbedAttempt.success none) 3 = .ok [] ∧
    OllamaClient.generate_embedding (fun _ => EmbedAttempt.success (some [])) 3
      = .ok [] := by
  constructor <;> rfl

/-- Helper: the retry loop raises when every attempt it can make fails. -/
theorem generate_embedding_loop_all_fail (attempts : ℕ → EmbedAttempt) :
    ∀ n i, (∀ k, k < n → attempts (i + k) = .fail) →
      OllamaClient.generate_embedding_loop attempts i n = .error () := by
  intro n
  induction n with
  | zero => intro i _; rfl
  | succ m ih =>
    intro i h
    have h0 : attempts i = .fail := by simpa using h 0 (Nat.succ_pos m)
    show OllamaClient.generate_embedding_loop attempts i (m + 1) = .error ()
    rw [OllamaClient.generate_embedding_loop, h0]
    exact ih (i + 1) (fun k hk => by
      have := h (k + 1) (Nat.succ_lt_succ hk)
      simpa [Nat.add_assoc, Nat.add_comm 1 k] using this)

/-- Helper: the retry loop returns the first successful response's embedding
field, defaulting to the empty list. -/
theorem generate_embedding_loop_first_success (attempts : ℕ → EmbedAttempt) :
    ∀ n i m e, m < n → (∀ k, k < m → attempts (i + k) = .fail) →
      attempts (i + m) = .success e →
      OllamaClient.generate_embedding_loop attempts i n = .ok (e.getD []) := by
  intro n
  induction n with
  | zero => intro i m e hm _ _; exact absurd hm (Nat.not_lt_zero m)
  | succ nn ih =>
    intro i m e hm hfail hsucc
    cases m with
    | zero =>
      show OllamaClient.generate_embedding_loop attempts i (nn + 1) = .ok (e.getD [])
      rw [OllamaClient.generate_embedding_loop]
      simp only [Nat.add_zero] at hsucc
      rw [hsucc]
    | succ mm =>
      have h0 : attempts i = .fail := by simpa using hfail 0 (Nat.succ_pos mm)
      show OllamaClient.generate_embedding_loop attempts i (nn + 1) = .ok (e.getD [])
      rw [OllamaClient.generate_embedding_loop, h0]
      refine ih (i + 1) mm e (Nat.lt_of_succ_lt_succ hm) (fun k hk => ?_) ?_
      · have := hfail (k + 1) (Nat.succ_lt_succ hk)
        simpa [Nat.add_assoc, Nat.add_comm 1 k] using this
      · have : i + 1 + mm = i + (mm + 1) := by omega
        rw [this]
        exact hsucc

/-- Helper: conversely, a raising `generate_embedding_loop` means every
attempt within the budget failed. -/
theorem generate_embedding_loop_error (attempts : ℕ → EmbedAttempt) :
    ∀ n i, OllamaClient.generate_embedding_loop attempts i n = .error () →
      ∀ k, k < n → attempts (i + k) = .fail := by
  intro n
  induction n with
  | zero => intro i _ k hk; exact absurd hk (Nat.not_lt_zero k)
  | succ m ih =>
    intro i h k hk
    rw [OllamaClient.generate_embedding_loop] at h
    cases hatt : attempts i with
    | success e => rw [hatt] at h; exact absurd h (by simp)
    | fail =>
      rw [hatt] at h
      cases k with
      | zero => simpa using hatt
      | succ kk =>
        have := ih (i + 1) h kk (Nat.lt_of_succ_lt_succ hk)
        simpa [Nat.add_assoc, Nat.add_comm 1 kk] using this

/-- C8 amended: `generate_embedding` raises exactly when all `max_retries`
attempts fail at the HTTP level; on the first successful HTTP response it
returns that response's `embedding` field, defaulting to the empty vector
when the field is missing — it performs no non-emptiness validation (the
caller `SearchService.search` is the one that rejects an empty query
embedding). -/
theorem generate_embedding_behaviour (attempts : ℕ → EmbedAttempt) (max_retries : ℕ) :
    (OllamaClient.generate_embedding attempts max_retries = .error () ↔
      ∀ k, k < max_retries → attempts k = .fail) ∧
    (∀ m e, m < max_retries → (∀ k, k < m → attempts k = .fail) →
      attempts m = .success e →
      OllamaClient.generate_embedding attempts max_retries = .ok (e.getD [])) := by
  constructor
  · constructor
    · intro h k hk
      have := generate_embedding_loop_error attempts max_retries 0 h k hk
      simpa using this
    · intro h
      exact generate_embedding_loop_all_fail attempts max_retries 0
        (fun k hk => by simpa using h k hk)
  · intro m e hm hfail hsucc
    exact generate_embedding_loop_first_success attempts max_retries 0 m e hm
      (fun k hk => by simpa using hfail k hk) (by simpa using hsucc)

/-- Witness for C8 (amended) at a concrete input: two transport failures
followed by a successful response yield that response's embedding. -/
theorem generate_embedding_behaviour_witness :
    OllamaClient.generate_embedding
        (fun i => if i < 2 then EmbedAttempt.fail else EmbedAttempt.success (some [1, 2])) 3
      = .ok [1, 2] := by
  have h := (generate_embedding_behaviour
    (fun i => if i < 2 then EmbedAttempt.fail else EmbedAttempt.success (some [1, 2])) 3).2
    2 (some [1, 2]) (by decide) (fun k hk => by interval_cases k <;> rfl) (by rfl)
  simpa using h

/-! ### Claim C7 — the search contract of the VectorIndex -/

/-- The similarities of the collected results form a sublist (in order) of
the raw hit similarities. -/
theorem collectHits_snd_sublist (st : FaissState) (fil : Option (List String))
    (K : ℕ) :
    ∀ (l : List (ℕ × ℚ)) (cnt : ℕ),
      List.Sublist ((FaissIndexManager.collectHits st fil K cnt l).map Prod.snd)
        (l.map Prod.snd) := by
  intro l
  induction l with
  | nil => intro cnt; simp [FaissIndexManager.collectHits]
  | cons hd tl ih =>
    intro cnt
    obtain ⟨idx, sim⟩ := hd
    rw [FaissIndexManager.collectHits]
    cases hglookup : dictGet idx st.index_to_id with
    | none =>
      simpa using (ih cnt).trans (List.sublist_cons_self _ _)
    | some vid =>
      dsimp only
      split_ifs with hskip hstop
      · simpa using (ih cnt).trans (List.sublist_cons_self _ _)
      · simp
      · simpa using ih (cnt + 1)

/-- Size bound for the collection loop: starting strictly below the target it
collects at most the remaining capacity. -/
theorem collectHits_length_le (st : FaissState) (fil : Option (List String))
    (K : ℕ) :
    ∀ (l : List (ℕ × ℚ)) (cnt : ℕ), cnt < K →
      (FaissIndexManager.collectHits st fil K cnt l).length ≤ K - cnt := by
  intro l
  induction l with
  | nil => intro cnt _; simp [FaissIndexManager.collectHits]
  | cons hd tl ih =>
    intro cnt hcnt
    obtain ⟨idx, sim⟩ := hd
    rw [FaissIndexManager.collectHits]
    cases hglookup : dictGet idx st.index_to_id with
    | none => exact ih cnt hcnt
    | some vid =>
      dsimp only
      split_ifs with hskip hstop
      · exact ih cnt hcnt
      · simp only [List.length_cons, List.length_nil]
        omega
      · have := ih (cnt + 1) (by omega)
        simp only [List.length_cons]
        omega

/-- The exact flat-index backend returns at most the requested number of raw
hits. -/
theorem searchAll_length_le (ip : List ℚ → List ℚ → ℚ) (vs : List (List ℚ))
    (q : List ℚ) (k : ℕ) : (IndexFlatIP.searchAll ip vs q k).length ≤ k := by
  simp [IndexFlatIP.searchAll]

/-- The exact flat-index backend returns hits in descending score order. -/
theorem searchAll_pairwise (ip : List ℚ → List ℚ → ℚ) (vs : List (List ℚ))
    (q : List ℚ) (k : ℕ) : (IndexFlatIP.searchAll ip vs q k).Pairwise rawDesc :=
  List.Pairwise.sublist (List.take_sublist _ _)
    (List.sorted_insertionSort rawDesc _)

/-- C7: for every query vector, `top_k` and optional id filter, the
VectorIndex search returns at most `top_k` (id, similarity) pairs ordered by
descending similarity, returns the empty sequence whenever the index holds
zero vectors, and with a (truthy) filter requests
`min(index_size, top_k * 10)` raw hits from the flat index before
filtering. -/
theorem faiss_search_contract (ip : List ℚ → List ℚ → ℚ) (st : FaissState)
    (q : List ℚ) (top_k : ℕ) (fil : Option (List String)) :
    (FaissIndexManager.search ip st q top_k fil).length ≤ top_k ∧
    (FaissIndexManager.search ip st q top_k fil).Pairwise (fun a b => b.2 ≤ a.2) ∧
    (st.vectors = [] → FaissIndexManager.search ip st q top_k fil = []) ∧
    (filterTruthy fil = true →
      FaissIndexManager.searchRequestK st top_k fil = min st.vectors.length (top_k * 10)) := by
  by_cases hlen : st.vectors.length = 0
  · refine ⟨?_, ?_, ?_, ?_⟩
    · simp [FaissIndexManager.search, FaissIndexManager.searchWith, hlen]
    · simp [FaissIndexManager.search, FaissIndexManager.searchWith, hlen]
    · intro _; simp [FaissIndexManager.search, FaissIndexManager.searchWith, hlen]
    · intro hf; simp [FaissIndexManager.searchRequestK, hf]
  · have hout : FaissIndexManager.search ip st q top_k fil =
        FaissIndexManager.collectHits st fil top_k 0
          (IndexFlatIP.searchAll ip st.vectors q
            (FaissIndexManager.searchRequestK st top_k fil)) := by
      simp [FaissIndexManager.search, FaissIndexManager.searchWith, hlen]
    refine ⟨?_, ?_, ?_, ?_⟩
    · rw [hout]
      by_cases hf : filterTruthy fil
      · by_cases hk : top_k = 0
        · subst hk
          have hreq : FaissIndexManager.searchRequestK st 0 fil = 0 := by
            simp [FaissIndexManager.searchRequestK, hf]
          rw [hreq]
          have hraw : IndexFlatIP.searchAll ip st.vectors q 0 = [] :=
            List.length_eq_zero.mp (Nat.le_zero.mp (searchAll_length_le ip st.vectors q 0))
          rw [hraw]
          simp [FaissIndexManager.collectHits]
        · have := collectHits_length_le st fil top_k
            (IndexFlatIP.searchAll ip st.vectors q
              (FaissIndexManager.searchRequestK st top_k fil)) 0 (by omega)
          omega
      · have hreq : FaissIndexManager.searchRequestK st top_k fil = top_k := by
          simp [FaissIndexManager.searchRequestK, hf]
        have hsub := collectHits_snd_sublist st fil top_k
          (IndexFlatIP.searchAll ip st.vectors q
            (FaissIndexManager.searchRequestK st top_k fil)) 0
        have hle := hsub.length_le
        simp only [List.length_map] at hle
        calc (FaissIndexManager.collectHits st fil top_k 0 _).length
            ≤ (IndexFlatIP.searchAll ip st.vectors q
                (FaissIndexManager.searchRequestK st top_k fil)).length := hle
          _ ≤ FaissIndexManager.searchRequestK st top_k fil := searchAll_length_le _ _ _ _
          _ = top_k := hreq
    · rw [hout]
      have hraw := searchAll_pairwise ip st.vectors q
        (FaissIndexManager.searchRequestK st top_k fil)
      have hraw2 : ((IndexFlatIP.searchAll ip st.vectors q
          (FaissIndexManager.searchRequestK st top_k fil)).map Prod.snd).Pairwise
            (fun x y : ℚ => y ≤ x) :=
        List.pairwise_map.mpr hraw
      have hsub := collectHits_snd_sublist st fil top_k
        (IndexFlatIP.searchAll ip st.vectors q
          (FaissIndexManager.searchRequestK st top_k fil)) 0
      have hpw := List.Pairwise.sublist hsub hraw2
      exact List.pairwise_map.mp hpw
    · intro hv
      exact absurd (by rw [hv]; rfl) hlen
    · intro hf
      simp [FaissIndexManager.searchRequestK, hf]

/-- Witness for C7 at a concrete input: a two-vector index searched with a
truthy filter. -/
theorem faiss_search_contract_witness :
    (FaissIndexManager.search dotQ
        { embedding_dim := 2, vectors := [[1, 0], [0, 1]],
          id_to_index := [("a", 0), ("b", 1)], index_to_id := [(0, "a"), (1, "b")] }
        [1, 0] 1 (some ["a", "b"])).length ≤ 1 ∧
    FaissIndexManager.searchRequestK
        { embedding_dim := 2, vectors := [[1, 0], [0, 1]],
          id_to_index := [("a", 0), ("b", 1)], index_to_id := [(0, "a"), (1, "b")] }
        1 (some ["a", "b"])
      = min 2 (1 * 10) := by
  have h := faiss_search_contract dotQ
    { embedding_dim := 2, vectors := [[1, 0], [0, 1]],
      id_to_index := [("a", 0), ("b", 1)], index_to_id := [(0, "a"), (1, "b")] }
    [1, 0] 1 (some ["a", "b"])
  exact ⟨h.1, h.2.2.2 rfl⟩

/-! ### Claim C9 — threshold monotonicity of `SearchService.search` -/

/-- Closed form for the FAISS-path result loop: starting strictly below the
target it returns the smaller of the remaining capacity and the number of
qualifying hits. -/
theorem faiss_filter_loop_length (meta : String → Bool) (t : ℚ) (K : ℕ) :
    ∀ (l : List (String × ℚ)) (cnt : ℕ), cnt < K →
      (SearchService.faiss_filter_loop meta t K cnt l).length
        = min (K - cnt) (l.countP (fun h => decide (h.2 ≥ t) && meta h.1)) := by
  intro l
  induction l with
  | nil => intro cnt _; simp [SearchService.faiss_filter_loop]
  | cons hd tl ih =>
    intro cnt hcnt
    obtain ⟨vid, sim⟩ := hd
    have hp : ((decide (sim ≥ t) && meta vid) = true) ↔ (sim ≥ t ∧ meta vid = true) := by
      simp [Bool.and_eq_true, decide_eq_true_iff]
    rw [SearchService.faiss_filter_loop, List.countP_cons]
    dsimp only
    by_cases hkeep : sim ≥ t ∧ meta vid = true
    · rw [if_pos hkeep, if_pos (hp.mpr hkeep)]
      by_cases hstop : cnt + 1 ≥ K
      · rw [if_pos hstop]
        simp only [List.length_cons, List.length_nil]
        omega
      · rw [if_neg hstop]
        have := ih (cnt + 1) (by omega)
        simp only [List.length_cons, this]
        omega
    · rw [if_neg hkeep, if_neg (fun hc => hkeep (hp.mp hc))]
      by_cases hbr : cnt ≥ K
      · omega
      · rw [if_neg hbr]
        have := ih cnt hcnt
        simp only [this]
        omega

/-- Counting lemma for `filterMap` under a pointwise implication between the
two selection functions. -/
theorem filterMap_length_mono {α β : Type} (f g : α → Option β)
    (h : ∀ a, (g a).isSome = true → (f a).isSome = true) :
    ∀ l : List α, (l.filterMap g).length ≤ (l.filterMap f).length := by
  intro l
  induction l with
  | nil => simp
  | cons a tl ih =>
    rw [List.filterMap_cons, List.filterMap_cons]
    cases hga : g a with
    | none =>
      cases hfa : f a with
      | none => exact ih
      | some b => simpa using Nat.le_succ_of_le ih
    | some b =>
      cases hfa : f a with
      | none =>
        exfalso
        have := h a (by simp [hga])
        rw [hfa] at this
        simp at this
      | some c => simpa using ih

/-- The row-selection function of the Python fallback at threshold `t`. -/
def fallbackSelect (rawCos : List ℚ → List ℚ → ℚ) (q : List ℚ) (t : ℚ)
    (row : DBRow) : Option (String × ℚ) :=
  match row.embedding with
  | none => none
  | some stored =>
    if stored = [] then none
    else
      if VectorRepository.cosine_similarity rawCos q stored ≥ t then
        some (row.vector_id, VectorRepository.cosine_similarity rawCos q stored)
      else none

/-- The fallback's kept-row list is exactly a `filterMap` of its selection
function. -/
theorem python_fallback_length (rawCos : List ℚ → List ℚ → ℚ) (rows : List DBRow)
    (q : List ℚ) (t : ℚ) (K : ℕ) :
    (SearchService.python_fallback rawCos rows q t K).length
      = min K (rows.filterMap (fallbackSelect rawCos q t)).length := by
  have hsel : (rows.filterMap (fun row =>
      match row.embedding with
      | none => none
      | some stored =>
        if stored = [] then none
        else
          let s := VectorRepository.cosine_similarity rawCos q stored
          if s ≥ t then some (row.vector_id, s) else none))
    = rows.filterMap (fallbackSelect rawCos q t) := by
    apply List.filterMap_congr
    intro row _
    rfl
  simp only [SearchService.python_fallback, hsel, List.length_take,
    List.length_insertionSort]

/-- C9: for a fixed query embedding and fixed candidate data, raising the
threshold never increases the number of results returned by
`SearchService.search`, on the FAISS path and on the Python-fallback path
alike. -/
theorem search_threshold_monotone (rawCos : List ℚ → List ℚ → ℚ)
    (meta : String → Bool) (db_rows : List DBRow) (query : List Char)
    (qe_call : Except Unit (List ℚ)) (primary : Except Unit (List (String × ℚ)))
    (top_k : ℕ) (t1 t2 : ℚ) (h0 : 0 ≤ t1) (h12 : t1 ≤ t2) (h2 : t2 ≤ 1)
    (hk1 : 1 ≤ top_k) (hk2 : top_k ≤ 100) :
    ∀ r1 r2,
      SearchService.search rawCos meta db_rows query qe_call primary top_k t1 = .ok r1 →
      SearchService.search rawCos meta db_rows query qe_call primary top_k t2 = .ok r2 →
      r2.results.length ≤ r1.results.length := by
  intro r1 r2 hr1 hr2
  unfold SearchService.search at hr1 hr2
  by_cases hq : query.all (fun c => c.isWhitespace)
  · rw [if_pos hq] at hr1
    exact absurd hr1 (by simp)
  rw [if_neg hq] at hr1 hr2
  have hkcond : ¬ (top_k < 1 ∨ top_k > 100) := by omega
  rw [if_neg hkcond] at hr1 hr2
  have ht1cond : ¬ (t1 < 0 ∨ t1 > 1) := by
    push_neg
    exact ⟨h0, le_trans h12 h2⟩
  have ht2cond : ¬ (t2 < 0 ∨ t2 > 1) := by
    push_neg
    exact ⟨le_trans h0 h12, h2⟩
  rw [if_neg ht1cond] at hr1
  rw [if_neg ht2cond] at hr2
  cases qe_call with
  | error e => exact absurd hr1 (by simp)
  | ok qe =>
    simp only at hr1 hr2
    by_cases hqe : qe = []
    · rw [if_pos hqe] at hr1
      exact absurd hr1 (by simp)
    rw [if_neg hqe] at hr1 hr2
    cases primary with
    | ok faiss_results =>
      simp only at hr1 hr2
      by_cases hempty : faiss_results = []
      · rw [if_pos hempty] at hr1 hr2
        obtain rfl : _ = r1 := Except.ok.inj hr1
        obtain rfl : _ = r2 := Except.ok.inj hr2
        simp
      · rw [if_neg hempty] at hr1 hr2
        obtain rfl : _ = r1 := Except.ok.inj hr1
        obtain rfl : _ = r2 := Except.ok.inj hr2
        simp only
        rw [faiss_filter_loop_length meta t1 top_k faiss_results 0 (by omega),
          faiss_filter_loop_length meta t2 top_k faiss_results 0 (by omega)]
        have hcount : faiss_results.countP (fun h => decide (h.2 ≥ t2) && meta h.1)
            ≤ faiss_results.countP (fun h => decide (h.2 ≥ t1) && meta h.1) := by
          apply List.countP_mono_left
          intro a _ ha
          simp only [Bool.and_eq_true, decide_eq_true_iff] at ha ⊢
          exact ⟨le_trans h12 ha.1, ha.2⟩
        omega
    | error e =>
      simp only at hr1 hr2
      by_cases hdb : db_rows = []
      · rw [if_pos hdb] at hr1 hr2
        obtain rfl : _ = r1 := Except.ok.inj hr1
        obtain rfl : _ = r2 := Except.ok.inj hr2
        simp
      · rw [if_neg hdb] at hr1 hr2
        obtain rfl : _ = r1 := Except.ok.inj hr1
        obtain rfl : _ = r2 := Except.ok.inj hr2
        simp only
        rw [python_fallback_length, python_fallback_length]
        have hsel : ∀ row, ((fallbackSelect rawCos qe t2 row).isSome = true) →
            ((fallbackSelect rawCos qe t1 row).isSome = true) := by
          intro row
          unfold fallbackSelect
          cases row.embedding with
          | none => simp
          | some stored =>
            dsimp only
            by_cases hst : stored = []
            · simp [hst]
            · rw [if_neg hst, if_neg hst]
              by_cases h2' : VectorRepository.cosine_similarity rawCos qe stored ≥ t2
              · rw [if_pos h2',
                  if_pos (le_trans h12 h2' :
                    VectorRepository.cosine_similarity rawCos qe stored ≥ t1)]
                simp
              · rw [if_neg h2']
                simp
        have := filterMap_length_mono (fallbackSelect rawCos qe t1)
          (fallbackSelect rawCos qe t2) hsel db_rows
        omega

/-- Witness for C9 at a concrete input: thresholds 0 and 1/2 over two FAISS
hits return two and one results respectively. -/
theorem search_threshold_monotone_witness :
    ({ success := true, results := [("a", (9 : ℚ)/10)], total_searched := 2 } :
        SearchResponseM).results.length
      ≤ ({ success := true, results := [("a", (9 : ℚ)/10), ("b", 1/10)],
            total_searched := 2 } : SearchResponseM).results.length :=
  search_threshold_monotone dotQ (fun _ => true) [] (("hi") : String).toList
    (.ok [1, 0]) (.ok [("a", 9/10), ("b", 1/10)]) 5 0 (1/2)
    (by decide) (by decide) (by decide) (by decide) (by decide)
    { success := true, results := [("a", (9 : ℚ)/10), ("b", 1/10)], total_searched := 2 }
    { success := true, results := [("a", (9 : ℚ)/10)], total_searched := 2 }
    (by rfl) (by rfl)

/-! ### Claim C1 — fallback policy of `SearchService.search` (corrected) -/

/-- A one-row durable store whose single chunk embedding is the unit vector
`[1, 0]`. -/
def c1Row : DBRow := { vector_id := "v1", doc_id := "d1", embedding := some [1, 0] }

/-- C1 counterexample: the durable store holds a row whose brute-force cosine
score passes the threshold — the fallback over the same scoped store is
non-empty — yet when the primary FAISS search returns an empty result without
raising, `search` answers with zero results instead of switching to the
fallback.  (At this input the abstracted square root is exact: the stored and
query vectors have L2 norm 1, so `dotQ` agrees with the float cosine, which
is 1.0.) -/
theorem search_no_fallback_on_empty_counterexample :
    SearchService.search dotQ (fun _ => true) [c1Row] (("hi") : String).toList
        (.ok [1, 0]) (.ok []) 5 0
      = .ok { success := true, results := [], total_searched := 0 } ∧
    SearchService.python_fallback dotQ [c1Row] [1, 0] 0 5 = [("v1", 1)] := by
  constructor
  · rfl
  · rfl

/-- C1 amended: the retrieval operation switches to the brute-force fallback
only when the primary path raises; with a raising primary and a non-empty
(scoped) durable store the response is exactly the fallback's scoring of the
store, but a primary search that returns an empty result without raising is
answered with an empty result immediately, even when the durable store is
non-empty. -/
theorem search_fallback_policy (rawCos : List ℚ → List ℚ → ℚ)
    (meta : String → Bool) (db_rows : List DBRow) (query : List Char)
    (qe : List ℚ) (top_k : ℕ) (t : ℚ)
    (hq : (query.all (fun c => c.isWhitespace)) = false)
    (hk : ¬ (top_k < 1 ∨ top_k > 100)) (ht : ¬ (t < 0 ∨ t > 1)) (hqe : qe ≠ []) :
    (SearchService.search rawCos meta db_rows query (.ok qe) (.ok []) top_k t
      = .ok { success := true, results := [], total_searched := 0 }) ∧
    (∀ err, db_rows ≠ [] →
      SearchService.search rawCos meta db_rows query (.ok qe) (.error err) top_k t
        = .ok { success := true
                results := SearchService.python_fallback rawCos db_rows qe t top_k
                total_searched := db_rows.length }) := by
  constructor
  · simp [SearchService.search, hq, hk, ht, hqe]
    omega
  · intro err hdb
    simp [SearchService.search, hq, hk, ht, hqe, hdb]
    omega

/-- Witness for C1 (amended) at a concrete input: a raising primary search
with a one-row store produces exactly the fallback scoring. -/
theorem search_fallback_policy_witness :
    SearchService.search dotQ (fun _ => true) [c1Row] (("hi") : String).toList
        (.ok [1, 0]) (.error ()) 5 0
      = .ok { success := true
              results := SearchService.python_fallback dotQ [c1Row] [1, 0] 0 5
              total_searched := 1 } :=
  (search_fallback_policy dotQ (fun _ => true) [c1Row] (("hi") : String).toList
    [1, 0] 5 0 (by rfl) (by decide) (by decide) (by decide)).2 () (by decide)

/-! ### Claim C3 — starvation guard of the context ranker -/

/-- C3: when fewer than `top_k` scored candidates pass the 0.5 quality bar
but the candidate set is non-empty, the ranker discards the filter and
returns the full candidate set sorted by combined score descending, truncated
to `top_k`; in particular it returns exactly `top_k` results whenever at
least `top_k` candidates exist. -/
theorem build_rag_context_starvation (results : List RagHit) (top_k : ℕ)
    (hne : results ≠ [])
    (hcount : ((ChatService.scoreResults results).filter
        (fun sr => sr.quality_score ≥ 0.5)).length < top_k) :
    ChatService.build_rag_context_rank results top_k
      = (List.insertionSort combinedDesc (ChatService.scoreResults results)).take top_k ∧
    (top_k ≤ results.length →
      (ChatService.build_rag_context_rank results top_k).length = top_k) := by
  have hlen : (ChatService.scoreResults results).length = results.length := by
    simp [ChatService.scoreResults]
  have hpos : (ChatService.scoreResults results).length > 0 := by
    rw [hlen]
    exact List.length_pos.mpr hne
  have hbranch : ChatService.build_rag_context_rank results top_k
      = (List.insertionSort combinedDesc
          (List.insertionSort combinedDesc (ChatService.scoreResults results))).take top_k := by
    unfold ChatService.build_rag_context_rank
    dsimp only
    rw [if_pos ⟨hcount, hpos⟩]
  have hsorted : List.insertionSort combinedDesc
      (List.insertionSort combinedDesc (ChatService.scoreResults results))
      = List.insertionSort combinedDesc (ChatService.scoreResults results) :=
    List.Sorted.insertionSort_eq (List.sorted_insertionSort combinedDesc _)
  constructor
  · rw [hbranch, hsorted]
  · intro hk
    rw [hbranch, hsorted, List.length_take, List.length_insertionSort, hlen]
    omega

/-- Two candidate hits whose chunk texts are under 50 characters, so both
have quality score 0.0. -/
def c3Hits : List RagHit :=
  [{ vector_id := "h1", chunk_text := (("tiny a") : String).toList, similarity := 1/2 },
   { vector_id := "h2", chunk_text := (("tiny b") : String).toList, similarity := 3/4 }]

/-- Witness for C3 at a concrete input: no candidate passes the 0.5 bar, yet
exactly `top_k = 2` results are returned. -/
theorem build_rag_context_starvation_witness :
    (ChatService.build_rag_context_rank c3Hits 2).length = 2 :=
  (build_rag_context_starvation c3Hits 2 (by decide) (by decide)).2 (by decide)

/-! ### Claim C6 — the chunk quality score (corrected) -/

/-- A 50-character text consisting solely of numeric tokens: 17 two-digit
tokens, no alphabetic token. -/
def c6Text : List Char :=
  (("11 22 33 44 55 66 77 88 99 00 11 22 33 44 55 66 77") : String).toList

/-- C6 counterexample: on an all-numeric 50-character text the code applies
no numeric penalty (its penalty is guarded by `len(words) > 0`) and scores
1.0, while the claim's formula — penalty whenever the numeric-token ratio
exceeds 0.3 — yields 0.7. -/
theorem quality_numeric_guard_counterexample :
    ChatService.calculate_chunk_quality_score c6Text = 1 ∧
    qualityScoreClaimed c6Text = 7/10 := by
  constructor
  · decide
  · decide

/-- C6 amended: the chunk quality score maps every string into `[0, 1]`; any
text shorter than 50 characters scores exactly 0.0; and otherwise the score
is 1.0 minus the five independent additive penalties of the claim — with the
numeric-token penalty additionally guarded by the presence of at least one
alphabetic token — clamped to `[0, 1]` (`qualityScoreAmended`). -/
theorem quality_score_contract (text : List Char) :
    0 ≤ ChatService.calculate_chunk_quality_score text ∧
    ChatService.calculate_chunk_quality_score text ≤ 1 ∧
    (text.length < 50 → ChatService.calculate_chunk_quality_score text = 0) ∧
    ChatService.calculate_chunk_quality_score text = qualityScoreAmended text := by
  have hrange : 0 ≤ ChatService.calculate_chunk_quality_score text ∧
      ChatService.calculate_chunk_quality_score text ≤ 1 := by
    unfold ChatService.calculate_chunk_quality_score
    by_cases hlen : text.length < 50
    · rw [if_pos hlen]
      exact ⟨le_refl 0, by norm_num⟩
    · rw [if_neg hlen]
      constructor
      · exact le_max_left 0 _
      · exact max_le (by norm_num) (min_le_left 1 _)
  refine ⟨hrange.1, hrange.2, fun hlen => ?_, ?_⟩
  · unfold ChatService.calculate_chunk_quality_score
    rw [if_pos hlen]
  · by_cases hlen : text.length < 50
    · simp [ChatService.calculate_chunk_quality_score, qualityScoreAmended, hlen]
    · simp only [ChatService.calculate_chunk_quality_score, qualityScoreAmended,
        qualityPenaltySymbols, qualityPenaltyBrackets, qualityPenaltyNumeric,
        qualityPenaltyNewlines, qualityPenaltyShort, numericTokenFrac, shortTokenFrac,
        hlen, if_false]
      congr 1
      congr 1
      split_ifs <;> ring

/-- Witness for C6 (amended) at a concrete input: a text under 50 characters
scores exactly 0. -/
theorem quality_score_contract_witness :
    ChatService.calculate_chunk_quality_score (("short") : String).toList = 0 :=
  (quality_score_contract (("short") : String).toList).2.2.1 (by decide)

/-! ### Claim C4 — the bijection invariant of the VectorIndex (corrected) -/

/-- One mutating call of the claimed API. -/
inductive FaissCall
  | add (vector_ids : List String) (embeddings : List (List ℚ))
  | remove (vector_ids : List String)
deriving DecidableEq

/-- Apply one call to the manager state, keeping the new state. -/
def applyCall (st : FaissState) : FaissCall → FaissState
  | .add ids embs => (FaissIndexManager.add_vectors st ids embs).1
  | .remove ids => (FaissIndexManager.remove_vectors st ids).1

/-- Apply a sequence of calls in order. -/
def applyCalls (st : FaissState) : List FaissCall → FaissState
  | [] => st
  | c :: rest => applyCalls (applyCall st c) rest

/-- The freshness condition of the amended claim: an `add` call never re-uses
an id that is currently mapped, and its ids are pairwise distinct; `remove`
is unrestricted. -/
def callOk (st : FaissState) : FaissCall → Prop
  | .add ids _ => ids.Nodup ∧ ∀ vid ∈ ids, dictGet vid st.id_to_index = none
  | .remove _ => True

instance (st : FaissState) (c : FaissCall) : Decidable (callOk st c) :=
  match c with
  | .add ids _ =>
    inferInstanceAs (Decidable (ids.Nodup ∧ ∀ vid ∈ ids, dictGet vid st.id_to_index = none))
  | .remove _ => inferInstanceAs (Decidable True)

/-- Every call in the sequence satisfies `callOk` at the state it is applied
to. -/
def LegalCalls (st : FaissState) : List FaissCall → Prop
  | [] => True
  | c :: rest => callOk st c ∧ LegalCalls (applyCall st c) rest

instance LegalCalls.instDecidable :
    ∀ (cs : List FaissCall) (st : FaissState), Decidable (LegalCalls st cs)
  | [], _ => isTrue trivial
  | c :: rest, st =>
    haveI := LegalCalls.instDecidable rest (applyCall st c)
    inferInstanceAs (Decidable (callOk st c ∧ LegalCalls (applyCall st c) rest))

/-- The internal consistency of a manager state: the id map has no duplicate
keys, the position map's keys are exactly the dense positions
`0..ntotal - 1` in order, the id map has one entry per stored vector, and the
two maps hold exactly the swapped pairs of one another. -/
def FaissInv (st : FaissState) : Prop :=
  (st.id_to_index.map Prod.fst).Nodup ∧
  st.index_to_id.map Prod.fst = List.range st.vectors.length ∧
  st.id_to_index.length = st.vectors.length ∧
  (∀ v i, (v, i) ∈ st.id_to_index ↔ (i, v) ∈ st.index_to_id)

/-- `dictGet` misses exactly the keys outside the map. -/
theorem dictGet_eq_none_iff {α β : Type} [DecidableEq α] (k : α) :
    ∀ d : List (α × β), dictGet k d = none ↔ k ∉ d.map Prod.fst := by
  intro d
  induction d with
  | nil => simp [dictGet]
  | cons p rest ih =>
    rw [dictGet]
    by_cases hk : p.1 = k
    · simp [hk]
    · rw [if_neg hk]
      simp only [List.map_cons, List.mem_cons, ih]
      constructor
      · rintro h (h1 | h2)
        · exact hk h1.symm
        · exact h h2
      · intro h
        exact fun h2 => h (Or.inr h2)

/-- Setting a fresh key appends the binding. -/
theorem dictSet_fresh_append {α β : Type} [DecidableEq α] (k : α) (v : β) :
    ∀ d : List (α × β), dictGet k d = none → dictSet k v d = d ++ [(k, v)] := by
  intro d
  induction d with
  | nil => intro _; rfl
  | cons p rest ih =>
    intro h
    rw [dictGet] at h
    by_cases hk : p.1 = k
    · rw [if_pos hk] at h
      exact absurd h (by simp)
    · rw [if_neg hk] at h
      rw [dictSet]
      rw [if_neg hk]
      rw [ih h]
      simp

/-- A fold of fresh, pairwise-distinct `dictSet`s appends the pairs in
order. -/
theorem foldl_dictSet_fresh {α β : Type} [DecidableEq α] :
    ∀ (pairs : List (α × β)) (d : List (α × β)),
      (pairs.map Prod.fst).Nodup →
      (∀ p ∈ pairs, dictGet p.1 d = none) →
      pairs.foldl (fun d p => dictSet p.1 p.2 d) d = d ++ pairs := by
  intro pairs
  induction pairs with
  | nil => intro d _ _; simp
  | cons p rest ih =>
    intro d hnodup hfresh
    rw [List.foldl_cons]
    have hp : dictGet p.1 d = none := hfresh p (List.mem_cons_self p rest)
    have hset : dictSet p.1 p.2 d = d ++ [p] := by
      rw [dictSet_fresh_append p.1 p.2 d hp]
    rw [hset]
    have hfresh' : ∀ q ∈ rest, dictGet q.1 (d ++ [p]) = none := by
      intro q hq
      rw [dictGet_eq_none_iff]
      simp only [List.map_append, List.mem_append, List.map_cons, List.map_nil,
        List.mem_singleton]
      rintro (hin | hin)
      · exact ((dictGet_eq_none_iff q.1 d).mp (hfresh q (List.mem_cons_of_mem p hq))) hin
      · rw [List.map_cons] at hnodup
        have := (List.nodup_cons.mp hnodup).1
        exact this (hin ▸ List.mem_map_of_mem Prod.fst hq)
    have hnodup' : (rest.map Prod.fst).Nodup := by
      rw [List.map_cons] at hnodup
      exact (List.nodup_cons.mp hnodup).2
    rw [ih (d ++ [p]) hnodup' hfresh']
    simp

/-- Folding `dictSet` over the swapped components is folding over the swapped
pairs. -/
theorem foldl_dictSet_swap {α β : Type} [DecidableEq α] [DecidableEq β] :
    ∀ (pairs : List (α × β)) (d : List (β × α)),
      pairs.foldl (fun d p => dictSet p.2 p.1 d) d
        = (pairs.map Prod.swap).foldl (fun d p => dictSet p.1 p.2 d) d := by
  intro pairs
  induction pairs with
  | nil => intro d; rfl
  | cons p rest ih => intro d; simp only [List.foldl_cons, List.map_cons, Prod.swap]; exact ih _

/-- Membership in a zip commutes with swapping the sides. -/
theorem mem_zip_swap {α β : Type} (l₁ : List α) (l₂ : List β) (a : α) (b : β) :
    (a, b) ∈ l₁.zip l₂ ↔ (b, a) ∈ l₂.zip l₁ := by
  constructor
  · intro h
    have := List.mem_map_of_mem Prod.swap h
    rwa [List.zip_swap] at this
  · intro h
    have := List.mem_map_of_mem Prod.swap h
    rwa [List.zip_swap] at this

/-- A legal `add_vectors` call preserves the manager invariant. -/
theorem add_vectors_preserves_inv (st : FaissState) (ids : List String)
    (embs : List (List ℚ)) (hinv : FaissInv st) (hnodup : ids.Nodup)
    (hfresh : ∀ vid ∈ ids, dictGet vid st.id_to_index = none) :
    FaissInv (FaissIndexManager.add_vectors st ids embs).1 := by
  obtain ⟨hkeys, hpos, hcard, hbij⟩ := hinv
  unfold FaissIndexManager.add_vectors
  split_ifs with h1 h2 h3
  · exact ⟨hkeys, hpos, hcard, hbij⟩
  · exact ⟨hkeys, hpos, hcard, hbij⟩
  · exact ⟨hkeys, hpos, hcard, hbij⟩
  · have hlen : ids.length = embs.length := not_ne_iff.mp h2
    dsimp only
    have hrlen : (List.range' st.vectors.length ids.length).length = ids.length := by
      simp
    have hzfst : (ids.zip (List.range' st.vectors.length ids.length)).map Prod.fst = ids :=
      List.map_fst_zip _ _ (by rw [hrlen])
    have hid : (ids.zip (List.range' st.vectors.length ids.length)).foldl
        (fun d p => dictSet p.1 p.2 d) st.id_to_index
        = st.id_to_index ++ ids.zip (List.range' st.vectors.length ids.length) :=
      foldl_dictSet_fresh _ _ (by rw [hzfst]; exact hnodup)
        (fun p hp => hfresh p.1 (List.of_mem_zip hp).1)
    have hswap : (ids.zip (List.range' st.vectors.length ids.length)).map Prod.swap
        = (List.range' st.vectors.length ids.length).zip ids := List.zip_swap _ _
    have hrfst : ((List.range' st.vectors.length ids.length).zip ids).map Prod.fst
        = List.range' st.vectors.length ids.length :=
      List.map_fst_zip _ _ (by rw [hrlen])
    have hfreshidx : ∀ q ∈ (List.range' st.vectors.length ids.length).zip ids,
        dictGet q.1 st.index_to_id = none := by
      intro q hq
      rw [dictGet_eq_none_iff, hpos, List.mem_range]
      have := (List.of_mem_zip hq).1
      rw [List.mem_range'_1] at this
      omega
    have hidx : (ids.zip (List.range' st.vectors.length ids.length)).foldl
        (fun d p => dictSet p.2 p.1 d) st.index_to_id
        = st.index_to_id ++ (List.range' st.vectors.length ids.length).zip ids := by
      rw [foldl_dictSet_swap, hswap]
      exact foldl_dictSet_fresh _ _ (by rw [hrfst]; exact List.nodup_range' _ _)
        hfreshidx
    rw [hid, hidx]
    refine ⟨?_, ?_, ?_, ?_⟩
    · rw [List.map_append, hzfst]
      refine List.Nodup.append hkeys hnodup ?_
      intro a ha hain
      exact ((dictGet_eq_none_iff a st.id_to_index).mp (hfresh a hain))
        ha
    · rw [List.map_append, hrfst, hpos]
      rw [List.length_append, ← hlen]
      rw [List.range_eq_range', List.range_eq_range']
      have := List.range'_append_1 0 st.vectors.length ids.length
      rw [Nat.zero_add] at this
      rw [this, Nat.add_comm]
    · rw [List.length_append, List.length_append, List.length_zip, hrlen, ← hlen]
      omega
    · intro v i
      simp only [List.mem_append]
      constructor
      · rintro (h | h)
        · exact Or.inl ((hbij v i).mp h)
        · exact Or.inr ((mem_zip_swap _ _ v i).mp h)
      · rintro (h | h)
        · exact Or.inl ((hbij v i).mpr h)
        · exact Or.inr ((mem_zip_swap _ _ v i).mpr h)

/-- `reconstructAll` preserves the number of bindings it reconstructs. -/
theorem reconstructAll_length (vectors : List (List ℚ)) :
    ∀ (l : List (String × ℕ)) (vs : List (List ℚ)),
      FaissIndexManager.reconstructAll vectors l = some vs → vs.length = l.length := by
  intro l
  induction l with
  | nil =>
    intro vs h
    rw [FaissIndexManager.reconstructAll] at h
    cases h
    rfl
  | cons p rest ih =>
    intro vs h
    rw [FaissIndexManager.reconstructAll] at h
    cases hv : vectors.get? p.2 with
    | none => rw [hv] at h; exact absurd h (by simp)
    | some v =>
      rw [hv] at h
      cases hrec : FaissIndexManager.reconstructAll vectors rest with
      | none => rw [hrec] at h; exact absurd h (by simp)
      | some vs' =>
        rw [hrec] at h
        cases h
        simp [ih vs' hrec]

/-- A rebuild preserves the manager invariant (and produces dense positions
`0..M-1`). -/
theorem rebuild_without_ids_preserves_inv (st : FaissState) (ids : List String)
    (hinv : FaissInv st) :
    FaissInv (FaissIndexManager.rebuild_without_ids st ids).1 := by
  obtain ⟨hkeys, hpos, hcard, hbij⟩ := hinv
  unfold FaissIndexManager.rebuild_without_ids
  dsimp only
  cases hrec : FaissIndexManager.reconstructAll st.vectors
      (st.id_to_index.filter (fun p => ¬ ids.contains p.1)) with
  | none =>
    exact ⟨hkeys, hpos, hcard, hbij⟩
  | some vecs =>
    dsimp only
    have hkeepnodup : ((st.id_to_index.filter (fun p => ¬ ids.contains p.1)).map
        Prod.fst).Nodup :=
      List.Nodup.sublist ((List.filter_sublist _).map Prod.fst) hkeys
    have hveclen : vecs.length
        = (st.id_to_index.filter (fun p => ¬ ids.contains p.1)).length :=
      reconstructAll_length st.vectors _ vecs hrec
    have hmlen : ((st.id_to_index.filter (fun p => ¬ ids.contains p.1)).map
        Prod.fst).length
        = (st.id_to_index.filter (fun p => ¬ ids.contains p.1)).length := by
      simp
    have hzfst : (((st.id_to_index.filter (fun p => ¬ ids.contains p.1)).map
        Prod.fst).zip (List.range ((st.id_to_index.filter
          (fun p => ¬ ids.contains p.1)).map Prod.fst).length)).map Prod.fst
        = (st.id_to_index.filter (fun p => ¬ ids.contains p.1)).map Prod.fst :=
      List.map_fst_zip _ _ (by simp)
    have hid : (((st.id_to_index.filter (fun p => ¬ ids.contains p.1)).map
        Prod.fst).zip (List.range ((st.id_to_index.filter
          (fun p => ¬ ids.contains p.1)).map Prod.fst).length)).foldl
        (fun d p => dictSet p.1 p.2 d) []
        = ((st.id_to_index.filter (fun p => ¬ ids.contains p.1)).map
            Prod.fst).zip (List.range ((st.id_to_index.filter
              (fun p => ¬ ids.contains p.1)).map Prod.fst).length) := by
      have := foldl_dictSet_fresh (α := String) (β := ℕ)
        (((st.id_to_index.filter (fun p => ¬ ids.contains p.1)).map
          Prod.fst).zip (List.range ((st.id_to_index.filter
            (fun p => ¬ ids.contains p.1)).map Prod.fst).length)) []
        (by rw [hzfst]; exact hkeepnodup) (fun p _ => rfl)
      simpa using this
    have hrfst : ((List.range ((st.id_to_index.filter
        (fun p => ¬ ids.contains p.1)).map Prod.fst).length).zip
          ((st.id_to_index.filter (fun p => ¬ ids.contains p.1)).map Prod.fst)).map
            Prod.fst
        = List.range ((st.id_to_index.filter
            (fun p => ¬ ids.contains p.1)).map Prod.fst).length :=
      List.map_fst_zip _ _ (by simp)
    have hidx : (((st.id_to_index.filter (fun p => ¬ ids.contains p.1)).map
        Prod.fst).zip (List.range ((st.id_to_index.filter
          (fun p => ¬ ids.contains p.1)).map Prod.fst).length)).foldl
        (fun d p => dictSet p.2 p.1 d) []
        = (List.range ((st.id_to_index.filter
            (fun p => ¬ ids.contains p.1)).map Prod.fst).length).zip
              ((st.id_to_index.filter (fun p => ¬ ids.contains p.1)).map Prod.fst) := by
      rw [foldl_dictSet_swap, List.zip_swap]
      have := foldl_dictSet_fresh (α := ℕ) (β := String)
        ((List.range ((st.id_to_index.filter
          (fun p => ¬ ids.contains p.1)).map Prod.fst).length).zip
            ((st.id_to_index.filter (fun p => ¬ ids.contains p.1)).map Prod.fst)) []
        (by rw [hrfst]; exact List.nodup_range _) (fun p _ => rfl)
      simpa using this
    rw [hid, hidx]
    refine ⟨?_, ?_, ?_, ?_⟩
    · rw [hzfst]
      exact hkeepnodup
    · rw [hrfst, hveclen, hmlen]
    · rw [List.length_zip]
      simp [hveclen]
    · intro v i
      exact mem_zip_swap _ _ v i

/-- `remove_vectors` preserves the manager invariant. -/
theorem remove_vectors_preserves_inv (st : FaissState) (ids : List String)
    (hinv : FaissInv st) :
    FaissInv (FaissIndexManager.remove_vectors st ids).1 := by
  unfold FaissIndexManager.remove_vectors
  split_ifs with h1 h2
  · exact hinv
  · exact hinv
  · exact rebuild_without_ids_preserves_inv st ids hinv

/-- The freshly constructed manager satisfies the invariant. -/
theorem empty_inv (dim : ℕ) : FaissInv (FaissState.empty dim) := by
  refine ⟨List.nodup_nil, rfl, rfl, fun v i => by simp [FaissState.empty]⟩

/-- Any legal call sequence preserves the manager invariant. -/
theorem legal_calls_preserve_inv (calls : List FaissCall) :
    ∀ st, FaissInv st → LegalCalls st calls → FaissInv (applyCalls st calls) := by
  induction calls with
  | nil => intro st h _; exact h
  | cons c rest ih =>
    intro st hinv hlegal
    obtain ⟨hok, hrest⟩ := hlegal
    refine ih (applyCall st c) ?_ hrest
    cases c with
    | add ids embs => exact add_vectors_preserves_inv st ids embs hinv hok.1 hok.2
    | remove ids => exact remove_vectors_preserves_inv st ids hinv

/-- C4 counterexample: starting from the empty index, adding id "a" and then
adding id "a" again (a sequence of two `add` calls) leaves `ntotal = 2` while
the id map holds one entry and the position map two — the three counts
diverge, so the bijection invariant does not hold after arbitrary `add`
sequences. -/
theorem bijection_invariant_counterexample :
    (applyCalls (FaissState.empty 1)
        [FaissCall.add ["a"] [[1]], FaissCall.add ["a"] [[2]]]).vectors.length = 2 ∧
    (applyCalls (FaissState.empty 1)
        [FaissCall.add ["a"] [[1]], FaissCall.add ["a"] [[2]]]).id_to_index.length = 1 ∧
    (applyCalls (FaissState.empty 1)
        [FaissCall.add ["a"] [[1]], FaissCall.add ["a"] [[2]]]).index_to_id.length = 2 := by
  decide

/-- C4 amended: after any sequence of `add`/`remove` calls starting from the
empty index in which no `add` re-uses a currently mapped id (and each call's
ids are pairwise distinct), the number of stored vectors equals the size of
both position maps, the two maps are inverses of each other, and the
positions are exactly `0..count-1` with no gaps — in particular immediately
after a remove-triggered rebuild. -/
theorem bijection_invariant (dim : ℕ) (calls : List FaissCall)
    (hlegal : LegalCalls (FaissState.empty dim) calls) :
    (applyCalls (FaissState.empty dim) calls).id_to_index.length
        = (applyCalls (FaissState.empty dim) calls).vectors.length ∧
    (applyCalls (FaissState.empty dim) calls).index_to_id.length
        = (applyCalls (FaissState.empty dim) calls).vectors.length ∧
    (∀ v i, (v, i) ∈ (applyCalls (FaissState.empty dim) calls).id_to_index
        ↔ (i, v) ∈ (applyCalls (FaissState.empty dim) calls).index_to_id) ∧
    (applyCalls (FaissState.empty dim) calls).index_to_id.map Prod.fst
        = List.range (applyCalls (FaissState.empty dim) calls).vectors.length := by
  obtain ⟨hkeys, hpos, hcard, hbij⟩ :=
    legal_calls_preserve_inv calls (FaissState.empty dim) (empty_inv dim) hlegal
  refine ⟨hcard, ?_, hbij, hpos⟩
  have := congrArg List.length hpos
  simpa using this

/-- A legal two-call scenario: add two vectors, then remove one. -/
def c4Calls : List FaissCall :=
  [FaissCall.add ["a", "b"] [[1, 0], [0, 1]], FaissCall.remove ["a"]]

/-- Witness for C4 (amended) at a concrete input: after the add-then-remove
scenario the position map keys are exactly the dense range. -/
theorem bijection_invariant_witness :
    (applyCalls (FaissState.empty 2) c4Calls).index_to_id.map Prod.fst
      = List.range (applyCalls (FaissState.empty 2) c4Calls).vectors.length :=
  (bijection_invariant 2 c4Calls (by decide)).2.2.2
